import Mathlib

/-
Verification of the Hoard-style multi-threaded memory allocator in src/mtmm.c
(per-CPU heaps plus one global heap, superblocks carved into size-class blocks).

Shallow embedding conventions:
* sizes and addresses are `Nat` (LP64: `size_t` is 64 bits; where unsigned
  wrap-around matters the reduction modulo 2^64 is written explicitly);
* struct sizes are the LP64/x86-64 values of the C structs:
  `sizeof(blockHeader) = 4 + 4 + 8 + 8 = 24` and
  `sizeof(superblockHeader) = 4 + 4 + 8 + 40 (pthread_mutex_t) + 8 + 8 + 8 = 80`;
* the intrusive singly linked free list (blocks chained through their `next`
  field) is modelled as a `List Nat` of block-header addresses, head first;
* fallible OS primitives (`fetch_memory`, i.e. mmap of /dev/zero) are an
  `Option Nat` input holding the returned base address;
* the float test `(float)(sc->usedBlocks) < (1-F)*(sc->numOfBlocks)` with
  `F = 0.4` is modelled as the exact rational comparison `5*used < 3*num`.
  For every pair of integers in range the double computation
  `(1-0.4)*num = 0.59999999999999997…*num` compared against an integer gives
  the same verdict as the exact comparison, because `0.6*num` is a multiple
  of 1/5 and hence never lies within the rounding error of an integer.
-/

namespace Mtmm

/-! ## Compile-time constants (mtmm.c lines 22-31, SUPERBLOCK_SIZE from mtmm.h) -/

def SUPERBLOCK_SIZE : Nat := 65536

def NUM_OF_CLASSES : Nat := 16

def NUM_OF_CPUS : Nat := 2

/-- `NUM_OF_HEAPS = NUM_OF_CPUS + 1`; the global heap is `heaps[NUM_OF_CPUS]`. -/
def globalHeapIdx : Nat := NUM_OF_CPUS

def SIZE_THRESHOLD : Nat := SUPERBLOCK_SIZE / 2

/-- `K`, the slack constant of the emptiness invariant (line 27). -/
def Kconst : Nat := 0

/-- `sizeof(blockHeader)` on LP64 (line 34-41). -/
def bhSize : Nat := 24

/-- `sizeof(superblockHeader)` on LP64 (line 49-59). -/
def sbhSize : Nat := 80

/-- `SIZE_OF_CLASS(class) = 1 << class` (line 28). -/
def classSize (c : Nat) : Nat := 2 ^ c

/-- Byte stride of one block inside a superblock: header plus payload. -/
def blockStride (c : Nat) : Nat := bhSize + classSize c

/-- Per-superblock block capacity of class `c` (line 205):
`(SUPERBLOCK_SIZE - sizeof(superblockHeader)) / (sizeof(blockHeader) + SIZE_OF_CLASS(class))`. -/
def numBlocks (c : Nat) : Nat := (SUPERBLOCK_SIZE - sbhSize) / blockStride c

/-! ## Size classification (line 252): `int class = (int) ceil(log2(sz))`.

For `sz ≥ 1` the value `ceil(log2 sz)` is `Nat.clog 2 sz`.  For `sz = 0` the C
expression is `(int)ceil(log2(0.0)) = (int)ceil(-inf)`, an undefined `int`
cast; the model returns `none` there. -/

def classOfSize (sz : Nat) : Option Nat :=
  if sz = 0 then none else some (Nat.clog 2 sz)

/-! ## Large-allocation path (malloc lines 240-250, free lines 342-347). -/

/-- Modulus of the `unsigned int` field `blockHeader.blockSize` (32 bits). -/
def uintMod : Nat := 2 ^ 32

structure LargeOut where
  /-- Byte count passed to `fetch_memory`: `sz + sizeof(blockHeader)`. -/
  mapRequest : Nat
  /-- Number of mutex acquisitions on this path. -/
  locksTaken : Nat
  /-- Returned payload pointer `p + 1` (header address plus `sizeof(blockHeader)`). -/
  result : Option Nat
  /-- `p->blockSize = sz` when the map succeeded; `blockSize` is a 32-bit
  `unsigned int`, so the store truncates `sz` modulo 2^32. -/
  recordedSize : Option Nat

/-- `malloc` for `sz > SIZE_THRESHOLD`; `os` is the `fetch_memory` outcome. -/
def malloc_large (sz : Nat) (os : Option Nat) : LargeOut :=
  { mapRequest := sz + bhSize
    locksTaken := 0
    result := os.map fun p => p + bhSize
    recordedSize := os.map fun _ => sz % uintMod }

/-- Byte count `free` passes to `munmap`: `block->blockSize + sizeof(blockHeader)` (line 345). -/
def free_large_unmap (blockSize : Nat) : Nat := blockSize + bhSize

/-- The branch test `block->blockSize > SUPERBLOCK_SIZE/2` taken by `free` (line 342). -/
def isLargeAtFree (blockSize : Nat) : Prop := SIZE_THRESHOLD < blockSize

/-! ## Grow-path failure behaviour (malloc lines 296-333).

The C code is

  superblock = (superblockHeader *)fetch_memory(SUPERBLOCK_SIZE);
  init_superblock(superblock, class);      /- runs BEFORE the null check -/
  if(superblock != NULL) { ... install, unlock both, return block+1 ... }
  perror(NULL);
  return NULL;                             /- no unlock on this path -/

Both the CPU class lock and the global class lock are held when this code
runs.  `init_superblock` begins with `sb->usedBlocks = 0`, so a failed
`fetch_memory` makes it store through the null pointer; and the failure exit
returns without releasing either lock.  The model records those effects. -/

structure GrowSt where
  cpuLocked : Bool
  globalLocked : Bool
  /-- `init_superblock` wrote its header fields through a null pointer. -/
  nullHeaderWrite : Bool
  /-- A superblock was linked into the CPU heap's class list. -/
  installed : Bool
deriving DecidableEq

/-- Straight-line model of lines 296-333; `os` is the `fetch_memory` outcome,
the returned `Nat` is the payload pointer on success. -/
def growPathOutcome (os : Option Nat) : Option Nat × GrowSt :=
  let st0 : GrowSt := ⟨true, true, false, false⟩
  let st1 : GrowSt := { st0 with nullHeaderWrite := os.isNone }
  match os with
  | some base =>
      (some (base + sbhSize + bhSize),
        { st1 with installed := true, cpuLocked := false, globalLocked := false })
  | none => (none, st1)

/-! ## `calloc` (lines 390-399) and `realloc` (lines 402-411).

Memory is a total byte map `Nat → Nat`; a region's liveness is a flag per
base pointer.  `memcpy`/`memset` are modelled pointwise; the `memcpy` model
reads from the pre-copy memory, which coincides with C `memcpy` whenever the
two regions do not overlap (the hypothesis used in the theorem). -/

def Mem : Type := Nat → Nat

def memsetM (m : Mem) (dst n v : Nat) : Mem :=
  fun x => if dst ≤ x ∧ x < dst + n then v else m x

def memcpyM (m : Mem) (dst src n : Nat) : Mem :=
  fun x => if dst ≤ x ∧ x < dst + n then m (src + (x - dst)) else m x

/-- `size_t` modulus on LP64. -/
def wordMod : Nat := 2 ^ 64

/-- The byte count `calloc` hands to `malloc` and to `memset`: the C
expression `num*sz` on `size_t`, i.e. the product reduced modulo 2^64. -/
def callocRequest (num sz : Nat) : Nat := (num * sz) % wordMod

/-- `calloc(num, sz)` (lines 390-399); `mallocRes` is the pointer returned by
the inner `malloc(num*sz)`, or `none` on allocation failure. -/
def callocModel (m : Mem) (num sz : Nat) (mallocRes : Option Nat) : Option Nat × Mem :=
  match mallocRes with
  | none => (none, m)
  | some p => (some p, memsetM m p (callocRequest num sz) 0)

/-! ## Size-class superblock lists (C1, C4).

A size class keeps its superblocks in a doubly linked list sorted by
non-increasing `usedBlocks`.  Here a class is abstracted to the list of its
superblocks' `usedBlocks` counts, head to tail.  The two bubbling loops —
`while(sb->next != NULL && sb->usedBlocks < (sb->next)->usedBlocks)
swap_superblocks(...)` after a free (lines 369-372, and in `move_superblock`
lines 187-190), and `while(superblock->prev != NULL && superblock->usedBlocks
> (superblock->prev)->usedBlocks) swap_superblocks(...)` after an allocation
(lines 267-270 and 324-327) — become insertions that move an element while it
is strictly out of order. -/

/-- Move `x` toward the tail through `l` while `x` is strictly smaller than
the next element (the free-side bubbling loop, strict `<` guard). -/
def bubbleToTail (x : Nat) : List Nat → List Nat
  | [] => [x]
  | y :: ys => if x < y then y :: bubbleToTail x ys else x :: y :: ys

/-- Move `x` toward the head through its predecessors, given closest first
(the allocation-side bubbling loop, strict `>` guard in the source, i.e. the
predecessor `y` is passed while `y < x`). -/
def bubbleToHead (x : Nat) : List Nat → List Nat
  | [] => [x]
  | y :: ys => if y < x then y :: bubbleToHead x ys else x :: y :: ys

/-- Effect of `free` on a class list: the touched superblock (count `a`,
predecessors `pre`, successors `post`) is decremented and bubbled toward the
tail (lines 365, 369-372). -/
def freeResort (pre : List Nat) (a : Nat) (post : List Nat) : List Nat :=
  pre ++ bubbleToTail (a - 1) post

/-- Effect of `malloc`'s fast path on a class list: the touched superblock is
incremented and bubbled toward the head (lines 264, 267-270). -/
def mallocResort (pre : List Nat) (a : Nat) (post : List Nat) : List Nat :=
  (bubbleToHead (a + 1) pre.reverse).reverse ++ post

/-- Effect of installing a fresh superblock: appended at the tail, then
bubbled toward the head (lines 313-327). -/
def growInsert (l : List Nat) (x : Nat) : List Nat :=
  (bubbleToHead x l.reverse).reverse

/-- Sorted by non-increasing `usedBlocks`, head to tail. -/
def SortedSb (l : List Nat) : Prop := List.Chain' (fun x y => y ≤ x) l

/-- Executable check for `SortedSb`. -/
def sortedSbB : List Nat → Bool
  | [] => true
  | [_] => true
  | x :: y :: t => decide (y ≤ x) && sortedSbB (y :: t)

instance decSortedSb (l : List Nat) : Decidable (SortedSb l) :=
  decidable_of_iff (sortedSbB l = true) (by
    induction l with
    | nil => simp [sortedSbB, SortedSb]
    | cons x t ih =>
      cases t with
      | nil => simp [sortedSbB, SortedSb]
      | cons y s =>
        rw [SortedSb, List.chain'_cons]
        rw [SortedSb] at ih
        simp [sortedSbB, Bool.and_eq_true, decide_eq_true_eq, ih])

/-- The per-class emptiness invariant with the source's parameters `K = 0`,
`F = 0.4`: `used ≥ num - K*S` or `used ≥ (1-F)*num`, over the class list `l`
of a class whose superblocks have capacity `S` (so `num = |l|*S`,
`used = sum l`). -/
def emptyInv (S : Nat) (l : List Nat) : Prop :=
  l.length * S - Kconst * S ≤ l.sum ∨ 3 * (l.length * S) ≤ 5 * l.sum

instance decEmptyInv (S : Nat) (l : List Nat) : Decidable (emptyInv S l) :=
  inferInstanceAs
    (Decidable (l.length * S - Kconst * S ≤ l.sum ∨ 3 * (l.length * S) ≤ 5 * l.sum))

/-- The weakened invariant that one tail eviction actually guarantees:
full, or within strictly less than one block of `(1-F)*num`. -/
def emptyInvSlack (S : Nat) (l : List Nat) : Prop :=
  l.length * S ≤ l.sum ∨ 3 * (l.length * S) < 5 * l.sum + 5

instance decEmptyInvSlack (S : Nat) (l : List Nat) : Decidable (emptyInvSlack S l) :=
  inferInstanceAs
    (Decidable (l.length * S ≤ l.sum ∨ 3 * (l.length * S) < 5 * l.sum + 5))

/-- The eviction predicate of `free` (line 377):
`sc->usedBlocks < sc->numOfBlocks - K*sb->numOfBlocks &&
(float)(sc->usedBlocks) < (1-F)*(sc->numOfBlocks)`, on the class list. -/
def evictCheck (S : Nat) (l : List Nat) : Bool :=
  decide (l.sum < l.length * S - Kconst * S) && decide (5 * l.sum < 3 * (l.length * S))

/-- One complete `free` of a block of a superblock with count `a ≥ 1` in a
non-global heap's class (lines 365-383): decrement, bubble toward the tail,
then — when the eviction predicate fires — move the tail superblock (the
emptiest) to the global heap, which removes it from this class's list. -/
def freeStep (S : Nat) (pre : List Nat) (a : Nat) (post : List Nat) : List Nat :=
  let l := freeResort pre a post
  if evictCheck S l then l.dropLast else l

/-! ## Superblock construction and the free-list accounting (C5). -/

/-- Header fields of one superblock; the intrusive free list (blocks chained
through `blockHeader.next`) is the list of block-header addresses, head
first. -/
structure SBlock where
  usedBlocks : Nat
  numOfBlocks : Nat
  freeList : List Nat
  parentHeap : Nat

/-- The chain built by the init loop of `init_superblock` (lines 212-222):
`n` block headers starting at `base`, each `w` bytes after the previous
(`p->next = (char*)p + sizeof(blockHeader) + SIZE_OF_CLASS(class)`). -/
def mkFreeList (base w : Nat) : Nat → List Nat
  | 0 => []
  | n + 1 => base :: mkFreeList (base + w) w n

/-- `init_superblock(sb, class)` (lines 200-224) for the superblock mapped at
`base`: zero used blocks, capacity `numBlocks c`, free list chaining every
block in address order.  (`parentHeap` is assigned by the caller, line 301.) -/
def init_superblock (base c : Nat) : SBlock :=
  { usedBlocks := 0
    numOfBlocks := numBlocks c
    freeList := mkFreeList (base + sbhSize) (blockStride c) (numBlocks c)
    parentHeap := 0 }

/-- Popping the free-list head on allocation (lines 261, 264). -/
def popBlock (sb : SBlock) : SBlock :=
  { sb with freeList := sb.freeList.tail, usedBlocks := sb.usedBlocks + 1 }

/-- Pushing a freed block at the free-list head (lines 361-362, 365). -/
def pushBlock (b : Nat) (sb : SBlock) : SBlock :=
  { sb with freeList := b :: sb.freeList, usedBlocks := sb.usedBlocks - 1 }

/-- The accounting invariant: `used_blocks + |free_list| = num_of_blocks`. -/
def sbInv (sb : SBlock) : Prop :=
  sb.usedBlocks + sb.freeList.length = sb.numOfBlocks

instance decSbInv (sb : SBlock) : Decidable (sbInv sb) :=
  inferInstanceAs (Decidable (sb.usedBlocks + sb.freeList.length = sb.numOfBlocks))

/-! ## Operational model of the small-allocation machinery (C7, C10).

The global state holds the three heaps' size classes (`heaps[i].classes[c]`,
indexed `i < 3` with `heaps[2]` the global heap), the superblock headers
(keyed by superblock base address) and the block headers (keyed by block
header address).  Class lists of superblocks and the per-superblock free
lists are kept as lists of addresses, head first; the doubly linked `prev` /
`next` pointers and the intrusive free-list `next` pointers are represented
by adjacency in those lists. -/

structure BlockHdr where
  blockSize : Nat
  inUse : Bool
  parentSuperblock : Nat

structure SClass where
  usedBlocks : Nat
  numOfBlocks : Nat
  superblocks : List Nat

structure HState where
  classes : Nat → Nat → SClass
  sbs : Nat → SBlock
  blocks : Nat → BlockHdr

/-- The state after `init()` (lines 86-101): every class empty. -/
def initialState : HState :=
  { classes := fun _ _ => { usedBlocks := 0, numOfBlocks := 0, superblocks := [] }
    sbs := fun _ => { usedBlocks := 0, numOfBlocks := 0, freeList := [], parentHeap := 0 }
    blocks := fun _ => { blockSize := 0, inUse := false, parentSuperblock := 0 } }

def updClass (st : HState) (h c : Nat) (f : SClass → SClass) : HState :=
  { st with classes := fun h' c' =>
      if h' = h ∧ c' = c then f (st.classes h c) else st.classes h' c' }

def updSb (st : HState) (s : Nat) (f : SBlock → SBlock) : HState :=
  { st with sbs := fun x => if x = s then f (st.sbs s) else st.sbs x }

def updBlock (st : HState) (b : Nat) (f : BlockHdr → BlockHdr) : HState :=
  { st with blocks := fun x => if x = b then f (st.blocks b) else st.blocks x }

/-- The addresses written by the block-initialization loop of
`init_superblock` (lines 212-222): the `numBlocks c` block headers laid out
from `base + sizeof(superblockHeader)` with stride `blockStride c`. -/
def isBlockAddr (base c x : Nat) : Prop :=
  ∃ i, i < numBlocks c ∧ x = base + sbhSize + i * blockStride c

instance decIsBlockAddr (base c x : Nat) : Decidable (isBlockAddr base c x) :=
  decidable_of_iff
    (((List.range (numBlocks c)).any fun i =>
        decide (x = base + sbhSize + i * blockStride c)) = true)
    (by simp [isBlockAddr, List.any_eq_true])

/-- Pointwise effect of the init loop on the block-header map: each block of
the new superblock gets `blockSize = 2^c`, `inUse = 0` and the back-reference
`parentSuperblock = base` (its `next` pointer is the following address,
represented by the superblock's free list). -/
def initBlocks (old : Nat → BlockHdr) (base c : Nat) : Nat → BlockHdr :=
  fun x =>
    if isBlockAddr base c x then
      { blockSize := classSize c, inUse := false, parentSuperblock := base }
    else old x

/-- `search_sizeclass`'s scan loop (lines 128-136): first superblock with a
free block; returns its free-list head. -/
def searchSbs (st : HState) : List Nat → Option Nat
  | [] => none
  | s :: rest =>
      if (st.sbs s).usedBlocks < (st.sbs s).numOfBlocks then (st.sbs s).freeList.head?
      else searchSbs st rest

/-- `search_sizeclass` (lines 124-137). -/
def search_sizeclass (st : HState) (h c : Nat) : Option Nat :=
  if (st.classes h c).usedBlocks = (st.classes h c).numOfBlocks then none
  else searchSbs st (st.classes h c).superblocks

/-- A superblock's sort key: its current `usedBlocks`. -/
def sbKey (st : HState) (s : Nat) : Nat := (st.sbs s).usedBlocks

/-- The free-side swap loop on a class list, with `s` entering from the head
side: `while (next exists and key s < key next) swap`. -/
def bubbleSbDown (st : HState) (s : Nat) : List Nat → List Nat
  | [] => [s]
  | y :: ys => if sbKey st s < sbKey st y then y :: bubbleSbDown st s ys else s :: y :: ys

/-- The allocation-side swap loop, on the reversed prefix of predecessors. -/
def bubbleSbUp (st : HState) (s : Nat) : List Nat → List Nat
  | [] => [s]
  | y :: ys => if sbKey st y < sbKey st s then y :: bubbleSbUp st s ys else s :: y :: ys

/-- Re-sort `s` toward the tail of class list `l` (free, lines 369-372). -/
def resortDown (st : HState) (l : List Nat) (s : Nat) : List Nat :=
  if s ∈ l then
    l.takeWhile (· ≠ s) ++ bubbleSbDown st s ((l.dropWhile (· ≠ s)).tail)
  else l

/-- Re-sort `s` toward the head of class list `l` (malloc, lines 267-270 and
324-327). -/
def resortUp (st : HState) (l : List Nat) (s : Nat) : List Nat :=
  if s ∈ l then
    (bubbleSbUp st s ((l.takeWhile (· ≠ s)).reverse)).reverse
      ++ (l.dropWhile (· ≠ s)).tail
  else l

/-- `move_superblock(sb, src, dst, class)` (lines 163-197): unlink from the
source class list, push at the head of the destination list, bubble toward
the tail, rebind `parentHeap`, transfer the aggregate statistics. -/
def move_superblock (st : HState) (s src dst c : Nat) : HState :=
  let used := (st.sbs s).usedBlocks
  let num := (st.sbs s).numOfBlocks
  let dstList := bubbleSbDown st s (st.classes dst c).superblocks
  let st1 := updClass st src c fun sc =>
    { sc with superblocks := sc.superblocks.erase s,
              usedBlocks := sc.usedBlocks - used,
              numOfBlocks := sc.numOfBlocks - num }
  let st2 := updClass st1 dst c fun sc =>
    { sc with superblocks := dstList,
              usedBlocks := sc.usedBlocks + used,
              numOfBlocks := sc.numOfBlocks + num }
  updSb st2 s fun sb => { sb with parentHeap := dst }

/-- Payload pointer handed to the caller: `(blockHeader*)b + 1`. -/
def payload (b : Nat) : Nat := b + bhSize

/-- The small-size part of `malloc` (lines 252-333) for class `c` on the heap
of index `h`: fast path (free block in the CPU heap), transfer path (steal
the global heap's head superblock), grow path (fresh superblock from the OS;
`os` is the `fetch_memory` outcome). -/
def mallocSmall (st : HState) (h c : Nat) (os : Option Nat) : Option Nat × HState :=
  match search_sizeclass st h c with
  | some b =>
      let s := (st.blocks b).parentSuperblock
      let st1 := updSb st s popBlock
      let st2 := updBlock st1 b fun hd => { hd with inUse := true }
      let st3 := updClass st2 h c fun sc => { sc with usedBlocks := sc.usedBlocks + 1 }
      let st4 := updClass st3 h c fun sc =>
        { sc with superblocks := resortUp st3 sc.superblocks s }
      (some (payload b), st4)
  | none =>
      match (st.classes globalHeapIdx c).superblocks.head? with
      | some s =>
          let b := (st.sbs s).freeList.headD 0
          let st1 := updSb st s popBlock
          let st2 := updBlock st1 b fun hd => { hd with inUse := true }
          let st3 := updClass st2 globalHeapIdx c fun sc =>
            { sc with usedBlocks := sc.usedBlocks + 1 }
          let st4 := move_superblock st3 s globalHeapIdx h c
          (some (payload b), st4)
      | none =>
          match os with
          | none => (none, st)
          | some base =>
              let sb0 := { init_superblock base c with parentHeap := h }
              let st1 := { st with
                sbs := fun x => if x = base then sb0 else st.sbs x,
                blocks := initBlocks st.blocks base c }
              let b := (st1.sbs base).freeList.headD 0
              let st2 := updSb st1 base popBlock
              let st3 := updBlock st2 b fun hd => { hd with inUse := true }
              let st4 := updClass st3 h c fun sc =>
                { sc with usedBlocks := sc.usedBlocks + 1,
                          numOfBlocks := sc.numOfBlocks + (st1.sbs base).numOfBlocks,
                          superblocks := sc.superblocks ++ [base] }
              let st5 := updClass st4 h c fun sc =>
                { sc with superblocks := resortUp st4 sc.superblocks base }
              (some (payload b), st5)

/-- `malloc(sz)` for a small size `sz ≥ 1`: class `ceil(log2 sz)` on heap
`h = HASH(pthread_self())`. -/
def mallocSm (st : HState) (h sz : Nat) (os : Option Nat) : Option Nat × HState :=
  mallocSmall st h (Nat.clog 2 sz) os

/-- `free(ptr)` (lines 337-387) for a non-null pointer.  The large branch
only unmaps and leaves the heap state unchanged; the small branch pushes the
block, updates the statistics, re-sorts, and evicts the tail superblock to
the global heap when the emptiness predicate fires (line 377). -/
def freeModel (st : HState) (ptr : Nat) : HState :=
  if SIZE_THRESHOLD < (st.blocks (ptr - bhSize)).blockSize then st
  else
    let b := ptr - bhSize
    let s := (st.blocks b).parentSuperblock
    let c := Nat.log 2 (st.blocks b).blockSize
    let h := (st.sbs s).parentHeap
    let st1 := updBlock st b fun hd => { hd with inUse := false }
    let st2 := updSb st1 s (pushBlock b)
    let st3 := updClass st2 h c fun sc => { sc with usedBlocks := sc.usedBlocks - 1 }
    let st4 := updClass st3 h c fun sc =>
      { sc with superblocks := resortDown st3 sc.superblocks s }
    if h ≠ globalHeapIdx
        ∧ (st4.classes h c).usedBlocks
            < (st4.classes h c).numOfBlocks - Kconst * (st4.sbs s).numOfBlocks
        ∧ 5 * (st4.classes h c).usedBlocks < 3 * (st4.classes h c).numOfBlocks then
      match (st4.classes h c).superblocks.getLast? with
      | some bad => move_superblock st4 bad h globalHeapIdx c
      | none => st4
    else st4

/-- The S1 scenario (single-threaded, cold start, heap `h`, OS returning a
superblock at base `a`): allocate 16 bytes, free the result, allocate 16
bytes again; yields the two returned pointers. -/
def c7run (h a : Nat) : Option Nat × Option Nat :=
  let r1 := mallocSm initialState h 16 (some a)
  let st2 := freeModel r1.2 (r1.1.getD 0)
  let r2 := mallocSm st2 h 16 none
  (r1.1, r2.1)

structure RState where
  mem : Mem
  alive : Nat → Bool

/-- The `free(ptr)` performed by `realloc` after a successful copy, abstracted
to the liveness flag of the old region. -/
def freeR (st : RState) (p : Nat) : RState :=
  { st with alive := fun q => if q = p then false else st.alive q }

/-- `realloc(ptr, sz)` (lines 402-411); `mallocRes` is the result of the inner
`malloc(sz)`.  On success it copies `sz` bytes from `ptr` and frees `ptr`;
on failure it returns null and touches nothing. -/
def reallocModel (st : RState) (ptr sz : Nat) (mallocRes : Option Nat) :
    Option Nat × RState :=
  match mallocRes with
  | none => (none, st)
  | some newPtr =>
      (some newPtr, freeR { st with mem := memcpyM st.mem newPtr ptr sz } ptr)

end Mtmm

namespace Mtmm

/-! # Theorems -/

/-- Claim C3: for every `1 ≤ sz ≤ SUPERBLOCK_SIZE/2` the class index
`ceil(log2 sz)` is defined, non-negative and `< NUM_OF_CLASSES`; but at the
failing input `sz = 0` the C computation `(int)ceil(log2(0))` is undefined
(the model yields `none`), so `malloc(0)` does not return a minimal block. -/
theorem C3_class_bounds :
    classOfSize 0 = none
      ∧ ∀ sz, 1 ≤ sz → sz ≤ SIZE_THRESHOLD →
          ∃ c, classOfSize sz = some c ∧ c < NUM_OF_CLASSES := by
  refine ⟨rfl, fun sz h1 h2 => ⟨Nat.clog 2 sz, ?_, ?_⟩⟩
  · simp [classOfSize]
    omega
  · have hth : SIZE_THRESHOLD = 2 ^ 15 := by decide
    have h3 : Nat.clog 2 sz ≤ Nat.clog 2 (2 ^ 15) :=
      Nat.clog_mono_right 2 (by omega)
    have h4 : Nat.clog 2 (2 ^ 15) = 15 := Nat.clog_pow 2 15 (by omega)
    have h5 : NUM_OF_CLASSES = 16 := rfl
    omega

/-- Witness for C3_class_bounds at `sz = 7`. -/
theorem C3_class_bounds_witness :
    classOfSize 0 = none ∧
      ∃ c, classOfSize 7 = some c ∧ c < NUM_OF_CLASSES :=
  ⟨C3_class_bounds.1, C3_class_bounds.2 7 (by decide) (by decide)⟩

/-- Claim C2: at the failing input (OS map failure in the grow path) the code
leaves both class locks held, writes the superblock header through the null
pointer, installs nothing and returns null — contradicting the claim that the
locks are released and no header is written.  On success both locks are
released and no null write occurs. -/
theorem C2_grow_failure_state :
    growPathOutcome none =
        (none, { cpuLocked := true, globalLocked := true,
                 nullHeaderWrite := true, installed := false })
      ∧ ∀ b, (growPathOutcome (some b)).2.cpuLocked = false
          ∧ (growPathOutcome (some b)).2.globalLocked = false
          ∧ (growPathOutcome (some b)).2.nullHeaderWrite = false
          ∧ (growPathOutcome (some b)).1 = some (b + sbhSize + bhSize) :=
  ⟨rfl, fun _ => ⟨rfl, rfl, rfl, rfl⟩⟩

/-- Claim C6 counterexample: at `sz = 2^32` (which exceeds
`SUPERBLOCK_SIZE/2`) the 32-bit `unsigned int` store `p->blockSize = sz`
records `sz mod 2^32 = 0`, so the claim "records `block_size = sz`" fails;
`free` then sees `blockSize = 0 ≤ SUPERBLOCK_SIZE/2` and takes the small
branch, and the large-branch unmap size computed from the stored field would
be `0 + 24 ≠ sz + 24`: the unmap size does not equal the map size. -/
theorem C6_counterexample :
    SIZE_THRESHOLD < 2 ^ 32
      ∧ (malloc_large (2 ^ 32) (some 4096)).recordedSize = some 0
      ∧ (malloc_large (2 ^ 32) (some 4096)).recordedSize ≠ some (2 ^ 32)
      ∧ ¬isLargeAtFree 0
      ∧ free_large_unmap 0 ≠ (malloc_large (2 ^ 32) (some 4096)).mapRequest := by
  refine ⟨by norm_num [SIZE_THRESHOLD, SUPERBLOCK_SIZE], ?_, ?_, ?_, ?_⟩
  · show some (2 ^ 32 % uintMod) = some 0
    norm_num [uintMod]
  · show some (2 ^ 32 % uintMod) ≠ some (2 ^ 32)
    norm_num [uintMod]
  · show ¬SIZE_THRESHOLD < 0
    omega
  · show (0 : Nat) + bhSize ≠ 2 ^ 32 + bhSize
    norm_num

/-- Claim C6 (amended): for every `SUPERBLOCK_SIZE/2 < sz < 2^32` the large
path maps exactly `sz + sizeof(blockHeader)` bytes with no locks, fails to
absence, records `blockSize = sz` (the 32-bit store does not truncate), and
returns the pointer just past the header; `free` then takes the large branch
and unmaps exactly the mapped size.  For `sz ≥ 2^32` the field truncates and
the round-trip fails (C6_counterexample). -/
theorem C6_large_roundtrip :
    ∀ sz os, SIZE_THRESHOLD < sz → sz < uintMod →
      (malloc_large sz os).mapRequest = sz + bhSize
        ∧ (malloc_large sz os).locksTaken = 0
        ∧ (os = none → (malloc_large sz os).result = none)
        ∧ (∀ p, os = some p →
            (malloc_large sz os).result = some (p + bhSize)
              ∧ (malloc_large sz os).recordedSize = some sz)
        ∧ isLargeAtFree sz
        ∧ free_large_unmap sz = (malloc_large sz os).mapRequest := by
  intro sz os h hlt
  refine ⟨rfl, rfl, ?_, ?_, h, rfl⟩
  · rintro rfl; rfl
  · rintro p rfl
    refine ⟨rfl, ?_⟩
    show some (sz % uintMod) = some sz
    rw [Nat.mod_eq_of_lt hlt]

/-- Witness for C6_large_roundtrip at `sz = 32769`, map result `some 4096`. -/
theorem C6_large_roundtrip_witness :
    SIZE_THRESHOLD < 32769
      ∧ 32769 < uintMod
      ∧ (malloc_large 32769 (some 4096)).mapRequest = 32769 + bhSize
      ∧ (malloc_large 32769 (some 4096)).result = some (4096 + bhSize)
      ∧ (malloc_large 32769 (some 4096)).recordedSize = some 32769
      ∧ free_large_unmap 32769 = (malloc_large 32769 (some 4096)).mapRequest := by
  have h := C6_large_roundtrip 32769 (some 4096) (by decide) (by decide)
  exact ⟨by decide, by decide, h.1, (h.2.2.2.1 4096 rfl).1, (h.2.2.2.1 4096 rfl).2,
    h.2.2.2.2.2⟩

/-- Claim C8: `realloc` allocates anew, copies `sz` bytes from the old region
and frees it; on allocation failure it returns absence and the whole state —
the old region's liveness and contents included — is untouched. -/
theorem C8_realloc_behavior :
    (∀ st ptr sz, reallocModel st ptr sz none = (none, st))
      ∧ ∀ st ptr sz newPtr, (ptr + sz ≤ newPtr ∨ newPtr + sz ≤ ptr) →
          (reallocModel st ptr sz (some newPtr)).1 = some newPtr
            ∧ (∀ i, i < sz →
                (reallocModel st ptr sz (some newPtr)).2.mem (newPtr + i)
                  = st.mem (ptr + i))
            ∧ (reallocModel st ptr sz (some newPtr)).2.alive ptr = false
            ∧ (∀ q, q ≠ ptr →
                (reallocModel st ptr sz (some newPtr)).2.alive q = st.alive q) := by
  refine ⟨fun _ _ _ => rfl, fun st ptr sz newPtr _hdisj => ⟨rfl, ?_, ?_, ?_⟩⟩
  · intro i hi
    show memcpyM st.mem newPtr ptr sz (newPtr + i) = st.mem (ptr + i)
    have hc : newPtr ≤ newPtr + i ∧ newPtr + i < newPtr + sz := by omega
    simp only [memcpyM, if_pos hc]
    congr 1
    omega
  · show (if ptr = ptr then false else st.alive ptr) = false
    simp
  · intro q hq
    show (if q = ptr then false else st.alive q) = st.alive q
    simp [hq]

/-- Witness for C8_realloc_behavior: concrete state, `ptr = 0`, `sz = 4`,
`newPtr = 100` (disjoint regions). -/
theorem C8_realloc_behavior_witness :
    reallocModel ⟨fun _ => 7, fun _ => true⟩ 0 4 none = (none, ⟨fun _ => 7, fun _ => true⟩)
      ∧ (0 + 4 ≤ 100 ∨ 100 + 4 ≤ 0)
      ∧ (reallocModel ⟨fun _ => 7, fun _ => true⟩ 0 4 (some 100)).1 = some 100
      ∧ (reallocModel ⟨fun _ => 7, fun _ => true⟩ 0 4 (some 100)).2.mem (100 + 1)
          = (⟨fun _ => 7, fun _ => true⟩ : RState).mem (0 + 1)
      ∧ (reallocModel ⟨fun _ => 7, fun _ => true⟩ 0 4 (some 100)).2.alive 0 = false
      ∧ (reallocModel ⟨fun _ => 7, fun _ => true⟩ 0 4 (some 100)).2.alive 3
          = (⟨fun _ => 7, fun _ => true⟩ : RState).alive 3 := by
  have h := C8_realloc_behavior.2 ⟨fun _ => 7, fun _ => true⟩ 0 4 100 (by omega)
  exact ⟨C8_realloc_behavior.1 ⟨fun _ => 7, fun _ => true⟩ 0 4, by omega,
    h.1, h.2.1 1 (by omega), h.2.2.1, h.2.2.2 3 (by omega)⟩

/-- Claim C9 counterexample: at `num = 2^32`, `sz = 2^32 + 1` the product
overflows `size_t`, so `calloc` delegates only `2^32` bytes and the byte at
offset `2^32 < num*sz` of the returned region is left unzeroed — refuting
"returns a pointer whose first `num*sz` bytes are all zero". -/
theorem C9_counterexample :
    2 ^ 32 < 2 ^ 32 * (2 ^ 32 + 1)
      ∧ callocRequest (2 ^ 32) (2 ^ 32 + 1) ≠ 2 ^ 32 * (2 ^ 32 + 1)
      ∧ (callocModel (fun _ => 1) (2 ^ 32) (2 ^ 32 + 1) (some 0)).1 = some 0
      ∧ (callocModel (fun _ => 1) (2 ^ 32) (2 ^ 32 + 1) (some 0)).2 (0 + 2 ^ 32) = 1 := by
  have hreq : callocRequest (2 ^ 32) (2 ^ 32 + 1) = 2 ^ 32 := by decide
  refine ⟨by norm_num, by rw [hreq]; norm_num, rfl, ?_⟩
  show memsetM (fun _ => 1) 0 (callocRequest (2 ^ 32) (2 ^ 32 + 1)) 0 (0 + 2 ^ 32) = 1
  rw [hreq]
  simp [memsetM]

/-- Claim C9 (amended): `calloc` delegates `num*sz` reduced modulo 2^64 to
`malloc`; when the product does not overflow this is exactly `num*sz`, the
first `num*sz` bytes of a successful allocation are zeroed, and a failed
allocation is returned as absence with no zeroing. -/
theorem C9_amended_calloc :
    ∀ (m : Mem) num sz p, num * sz < wordMod →
      callocRequest num sz = num * sz
        ∧ callocModel m num sz none = (none, m)
        ∧ (callocModel m num sz (some p)).1 = some p
        ∧ ∀ i, i < num * sz → (callocModel m num sz (some p)).2 (p + i) = 0 := by
  intro m num sz p hlt
  have hreq : callocRequest num sz = num * sz := Nat.mod_eq_of_lt hlt
  refine ⟨hreq, rfl, rfl, fun i hi => ?_⟩
  show memsetM m p (callocRequest num sz) 0 (p + i) = 0
  rw [hreq]
  have hc : p ≤ p + i ∧ p + i < p + num * sz := by omega
  simp only [memsetM]
  rw [if_pos hc]

/-- Witness for C9_amended_calloc at `num = 3`, `sz = 5`, `p = 10`. -/
theorem C9_amended_calloc_witness :
    3 * 5 < wordMod
      ∧ callocRequest 3 5 = 3 * 5
      ∧ (callocModel (fun _ => 9) 3 5 (some 10)).1 = some 10
      ∧ (callocModel (fun _ => 9) 3 5 (some 10)).2 (10 + 2) = 0 := by
  have h := C9_amended_calloc (fun _ => 9) 3 5 10 (by decide)
  exact ⟨by decide, h.1, h.2.2.1, h.2.2.2 2 (by decide)⟩

/-! ### Lemmas on the bubbling insertions (shared by C1 and C4) -/

theorem bubbleToTail_headq (x : Nat) (l : List Nat) :
    (bubbleToTail x l).head? = some x ∨ (bubbleToTail x l).head? = l.head? := by
  cases l with
  | nil => exact Or.inl rfl
  | cons y ys =>
    by_cases h : x < y
    · right; simp [bubbleToTail, h]
    · left; simp [bubbleToTail, h]

theorem bubbleToHead_headq (x : Nat) (l : List Nat) :
    (bubbleToHead x l).head? = some x ∨ (bubbleToHead x l).head? = l.head? := by
  cases l with
  | nil => exact Or.inl rfl
  | cons y ys =>
    by_cases h : y < x
    · right; simp [bubbleToHead, h]
    · left; simp [bubbleToHead, h]

theorem bubbleToTail_length (x : Nat) (l : List Nat) :
    (bubbleToTail x l).length = l.length + 1 := by
  induction l with
  | nil => rfl
  | cons y ys ih =>
    by_cases h : x < y <;> simp [bubbleToTail, h, ih]

theorem bubbleToTail_sum (x : Nat) (l : List Nat) :
    (bubbleToTail x l).sum = x + l.sum := by
  induction l with
  | nil => simp [bubbleToTail]
  | cons y ys ih =>
    by_cases h : x < y
    · simp [bubbleToTail, h, ih]; omega
    · simp [bubbleToTail, h]

theorem bubbleToTail_mem (x z : Nat) (l : List Nat) (hz : z ∈ bubbleToTail x l) :
    z = x ∨ z ∈ l := by
  induction l with
  | nil => simp [bubbleToTail] at hz; exact Or.inl hz
  | cons y ys ih =>
    by_cases h : x < y
    · simp only [bubbleToTail, if_pos h, List.mem_cons] at hz
      rcases hz with rfl | hz
      · exact Or.inr (List.mem_cons_self _ _)
      · rcases ih hz with h1 | h1
        · exact Or.inl h1
        · exact Or.inr (List.mem_cons_of_mem _ h1)
    · simp only [bubbleToTail, if_neg h, List.mem_cons] at hz
      rcases hz with rfl | hz
      · exact Or.inl rfl
      · exact Or.inr (by simpa using hz)

theorem sortedSb_bubbleToTail (x : Nat) (l : List Nat) (h : SortedSb l) :
    SortedSb (bubbleToTail x l) := by
  induction l with
  | nil => simp [bubbleToTail, SortedSb]
  | cons y ys ih =>
    have h1 : ∀ z ∈ ys.head?, z ≤ y := (List.chain'_cons'.mp h).1
    have h2 : SortedSb ys := (List.chain'_cons'.mp h).2
    by_cases hxy : x < y
    · simp only [bubbleToTail, if_pos hxy]
      rw [SortedSb, List.chain'_cons']
      refine ⟨?_, ih h2⟩
      intro z hz
      rcases bubbleToTail_headq x ys with he | he
      · rw [he] at hz; simp at hz; omega
      · rw [he] at hz; exact h1 z hz
    · simp only [bubbleToTail, if_neg hxy]
      rw [SortedSb, List.chain'_cons']
      exact ⟨fun z hz => by simp at hz; omega, h⟩

theorem chainLe_bubbleToHead (x : Nat) (l : List Nat)
    (h : List.Chain' (fun a b => a ≤ b) l) :
    List.Chain' (fun a b => a ≤ b) (bubbleToHead x l) := by
  induction l with
  | nil => simp [bubbleToHead]
  | cons y ys ih =>
    have h1 : ∀ z ∈ ys.head?, y ≤ z := (List.chain'_cons'.mp h).1
    have h2 : List.Chain' (fun a b => a ≤ b) ys := (List.chain'_cons'.mp h).2
    by_cases hxy : y < x
    · simp only [bubbleToHead, if_pos hxy]
      rw [List.chain'_cons']
      refine ⟨?_, ih h2⟩
      intro z hz
      rcases bubbleToHead_headq x ys with he | he
      · rw [he] at hz; simp at hz; omega
      · rw [he] at hz; exact h1 z hz
    · simp only [bubbleToHead, if_neg hxy]
      rw [List.chain'_cons']
      exact ⟨fun z hz => by simp at hz; omega, h⟩

theorem sortedSb_decomp (pre : List Nat) (a : Nat) (post : List Nat)
    (h : SortedSb (pre ++ a :: post)) :
    SortedSb pre ∧ (∀ z ∈ post.head?, z ≤ a) ∧ SortedSb post
      ∧ ∀ x ∈ pre.getLast?, a ≤ x := by
  rw [SortedSb, List.chain'_append] at h
  refine ⟨h.1, (List.chain'_cons'.mp h.2.1).1, (List.chain'_cons'.mp h.2.1).2, ?_⟩
  intro x hx
  exact h.2.2 x hx a (by simp)

theorem freeResort_sorted (pre : List Nat) (a : Nat) (post : List Nat)
    (h : SortedSb (pre ++ a :: post)) : SortedSb (freeResort pre a post) := by
  obtain ⟨hpre, hpost, hsp, hbd⟩ := sortedSb_decomp pre a post h
  rw [freeResort, SortedSb, List.chain'_append]
  refine ⟨hpre, sortedSb_bubbleToTail _ _ hsp, ?_⟩
  intro x hx z hz
  have hax : a ≤ x := hbd x hx
  rcases bubbleToTail_headq (a - 1) post with he | he
  · rw [he] at hz; simp at hz; omega
  · rw [he] at hz
    have := hpost z hz
    omega

theorem mallocResort_sorted (pre : List Nat) (a : Nat) (post : List Nat)
    (h : SortedSb (pre ++ a :: post)) : SortedSb (mallocResort pre a post) := by
  obtain ⟨hpre, hpost, hsp, hbd⟩ := sortedSb_decomp pre a post h
  have hrev : List.Chain' (fun x y => x ≤ y) pre.reverse :=
    List.chain'_reverse.mpr hpre
  have hb : List.Chain' (fun x y => x ≤ y) (bubbleToHead (a + 1) pre.reverse) :=
    chainLe_bubbleToHead _ _ hrev
  rw [mallocResort, SortedSb, List.chain'_append]
  refine ⟨List.chain'_reverse.mpr hb, hsp, ?_⟩
  intro u hu v hv
  rw [List.getLast?_reverse] at hu
  have hva : v ≤ a := hpost v hv
  rcases bubbleToHead_headq (a + 1) pre.reverse with he | he
  · rw [he] at hu; simp at hu; omega
  · rw [he, List.head?_reverse] at hu
    have := hbd u hu
    omega

theorem growInsert_sorted (x : Nat) (l : List Nat) (h : SortedSb l) :
    SortedSb (growInsert l x) := by
  have hrev : List.Chain' (fun a b => a ≤ b) l.reverse :=
    List.chain'_reverse.mpr h
  have hb := chainLe_bubbleToHead x l.reverse hrev
  rw [growInsert, SortedSb]
  exact List.chain'_reverse.mpr hb

/-- In a non-increasing list the last element is a minimum. -/
theorem sorted_getLast_le (l : List Nat) (h : SortedSb l) (t : Nat)
    (ht : l.getLast? = some t) : ∀ x ∈ l, t ≤ x := by
  induction l with
  | nil => simp at ht
  | cons y ys ih =>
    cases ys with
    | nil =>
      simp at ht
      intro x hx
      simp at hx
      omega
    | cons z zs =>
      rw [List.getLast?_cons_cons] at ht
      have h1 : z ≤ y := (List.chain'_cons'.mp h).1 z (by simp)
      have h2 : SortedSb (z :: zs) := (List.chain'_cons'.mp h).2
      have hmin := ih h2 ht
      intro x hx
      rcases List.mem_cons.mp hx with rfl | hx
      · have := hmin z (by simp)
        omega
      · exact hmin x hx

theorem sum_ge_length_mul (l : List Nat) (t : Nat) (h : ∀ x ∈ l, t ≤ x) :
    l.length * t ≤ l.sum := by
  induction l with
  | nil => simp
  | cons y ys ih =>
    have h1 := h y (by simp)
    have h2 := ih fun x hx => h x (by simp [hx])
    simp only [List.length_cons, List.sum_cons, Nat.succ_mul]
    omega

theorem sum_le_length_mul (l : List Nat) (S : Nat) (h : ∀ x ∈ l, x ≤ S) :
    l.sum ≤ l.length * S := by
  induction l with
  | nil => simp
  | cons y ys ih =>
    have h1 := h y (by simp)
    have h2 := ih fun x hx => h x (by simp [hx])
    simp only [List.length_cons, List.sum_cons, Nat.succ_mul]
    omega

/-- Claim C4: after a free-side resort, an allocation-side resort, a migration
insertion and a grow-path insertion the class list is again sorted by
non-increasing fullness; and both bubbling loops swap only strictly
mis-ordered neighbours, so equal-fullness neighbours stay in place. -/
theorem C4_sorted_stable :
    (∀ pre a post, SortedSb (pre ++ a :: post) → SortedSb (freeResort pre a post))
      ∧ (∀ pre a post, SortedSb (pre ++ a :: post) → SortedSb (mallocResort pre a post))
      ∧ (∀ x l, SortedSb l → SortedSb (bubbleToTail x l))
      ∧ (∀ x l, SortedSb l → SortedSb (growInsert l x))
      ∧ (∀ x y ys, ¬x < y → bubbleToTail x (y :: ys) = x :: y :: ys)
      ∧ (∀ x y ys, ¬y < x → bubbleToHead x (y :: ys) = x :: y :: ys) :=
  ⟨freeResort_sorted, mallocResort_sorted,
    fun x l h => sortedSb_bubbleToTail x l h,
    fun x l h => growInsert_sorted x l h,
    fun x y ys h => by simp [bubbleToTail, h],
    fun x y ys h => by simp [bubbleToHead, h]⟩

/-- Witness for C4_sorted_stable on concrete lists (including an
equal-fullness pair that is not swapped). -/
theorem C4_sorted_stable_witness :
    SortedSb ([3] ++ 2 :: [1])
      ∧ SortedSb (freeResort [3] 2 [1])
      ∧ SortedSb (mallocResort [3] 2 [1])
      ∧ SortedSb (bubbleToTail 2 [3, 1])
      ∧ SortedSb (growInsert [3, 1] 2)
      ∧ bubbleToTail 2 (2 :: [1]) = 2 :: 2 :: [1]
      ∧ bubbleToHead 2 (2 :: [3]) = 2 :: 2 :: [3] := by
  refine ⟨by decide, C4_sorted_stable.1 [3] 2 [1] (by decide),
    C4_sorted_stable.2.1 [3] 2 [1] (by decide),
    C4_sorted_stable.2.2.1 2 [3, 1] (by decide),
    C4_sorted_stable.2.2.2.1 2 [3, 1] (by decide),
    C4_sorted_stable.2.2.2.2.1 2 2 [1] (by decide),
    C4_sorted_stable.2.2.2.2.2 2 2 [3] (by decide)⟩

/-! ### Lemmas on the initial free-list chain (C5) -/

theorem mkFreeList_length (w : Nat) : ∀ (n base : Nat), (mkFreeList base w n).length = n := by
  intro n
  induction n with
  | zero => intro base; rfl
  | succ k ih => intro base; simp [mkFreeList, ih]

theorem mkFreeList_chain (w : Nat) (hw : 0 < w) :
    ∀ (n base : Nat), List.Chain' (fun x y => x < y) (mkFreeList base w n) := by
  intro n
  induction n with
  | zero => intro base; simp [mkFreeList]
  | succ k ih =>
    intro base
    simp only [mkFreeList]
    rw [List.chain'_cons']
    refine ⟨?_, ih (base + w)⟩
    intro z hz
    cases k with
    | zero => simp [mkFreeList] at hz
    | succ k2 =>
      simp only [mkFreeList, List.head?_cons, Option.mem_def, Option.some.injEq] at hz
      omega

/-- Claim C5: construction yields `used_blocks = 0` and a free list chaining
exactly `num_of_blocks` blocks in increasing address order; popping on
allocation and pushing on free preserve `used_blocks + |free_list| =
num_of_blocks`; and under that accounting a full superblock has an empty free
list. -/
theorem C5_freelist_accounting :
    (∀ base c, (init_superblock base c).usedBlocks = 0
        ∧ (init_superblock base c).usedBlocks
            + (init_superblock base c).freeList.length
            = (init_superblock base c).numOfBlocks
        ∧ (init_superblock base c).freeList.length = numBlocks c
        ∧ List.Chain' (fun x y => x < y) (init_superblock base c).freeList)
      ∧ (∀ sb : SBlock, sbInv sb → sb.usedBlocks < sb.numOfBlocks → sbInv (popBlock sb))
      ∧ (∀ (sb : SBlock) (b : Nat), sbInv sb → 1 ≤ sb.usedBlocks → sbInv (pushBlock b sb))
      ∧ (∀ sb : SBlock, sbInv sb → sb.usedBlocks = sb.numOfBlocks → sb.freeList = []) := by
  have hw : ∀ c, 0 < blockStride c := by
    intro c
    have : 0 < classSize c := Nat.pos_pow_of_pos c (by omega)
    simp only [blockStride, bhSize]
    omega
  refine ⟨?_, ?_, ?_, ?_⟩
  · intro base c
    refine ⟨rfl, ?_, ?_, ?_⟩
    · simp [init_superblock, mkFreeList_length]
    · simp [init_superblock, mkFreeList_length]
    · exact mkFreeList_chain (blockStride c) (hw c) (numBlocks c) (base + sbhSize)
  · intro sb h1 h2
    simp only [sbInv, popBlock, List.length_tail] at h1 ⊢
    omega
  · intro sb b h1 h2
    simp only [sbInv, pushBlock, List.length_cons] at h1 ⊢
    omega
  · intro sb h1 h2
    simp only [sbInv] at h1
    have : sb.freeList.length = 0 := by omega
    exact List.length_eq_zero.mp this

/-- Witness for C5_freelist_accounting on a concrete class and superblock. -/
theorem C5_freelist_accounting_witness :
    ((init_superblock 0 4).usedBlocks = 0
        ∧ (init_superblock 0 4).freeList.length = numBlocks 4)
      ∧ (sbInv ⟨1, 3, [10, 20], 0⟩ ∧ (1 : Nat) < 3 ∧ sbInv (popBlock ⟨1, 3, [10, 20], 0⟩))
      ∧ (sbInv ⟨1, 3, [10, 20], 0⟩ ∧ sbInv (pushBlock 30 ⟨1, 3, [10, 20], 0⟩))
      ∧ (sbInv ⟨3, 3, [], 0⟩ ∧ (pushBlock 7 ⟨3, 3, [], 0⟩).freeList ≠ []) := by
  refine ⟨⟨(C5_freelist_accounting.1 0 4).1, (C5_freelist_accounting.1 0 4).2.2.1⟩,
    ⟨by decide, by decide, C5_freelist_accounting.2.1 ⟨1, 3, [10, 20], 0⟩ (by decide) (by decide)⟩,
    ⟨by decide, C5_freelist_accounting.2.2.1 ⟨1, 3, [10, 20], 0⟩ 30 (by decide) (by decide)⟩,
    ⟨by decide, by decide⟩⟩

/-! ### The emptiness invariant after a free (C1) -/

/-- Claim C1 counterexample: a class of five capacity-1 superblocks (class 15
has exactly this shape) holding `[1,1,1,0,0]` satisfies the emptiness
invariant; freeing the block of the middle superblock fires the eviction
predicate, exactly one superblock — the empty tail — is evicted, and the
resulting class `[1,1,0,0]` still violates the invariant
(`2 < 4 - 0` and `5·2 < 3·4`): one eviction is not sufficient. -/
theorem C1_counterexample :
    (SortedSb ([1, 1] ++ 1 :: [0, 0])
        ∧ (∀ u ∈ [1, 1] ++ 1 :: [0, 0], u ≤ 1)
        ∧ 1 ≤ 1
        ∧ emptyInv 1 ([1, 1] ++ 1 :: [0, 0]))
      ∧ evictCheck 1 (freeResort [1, 1] 1 [0, 0]) = true
      ∧ freeStep 1 [1, 1] 1 [0, 0] = [1, 1, 0, 0]
      ∧ ¬emptyInv 1 (freeStep 1 [1, 1] 1 [0, 0]) := by
  decide

/-- Claim C1 (amended): a free in a non-global heap's class evicts exactly one
superblock — the tail, the emptiest — when the eviction predicate fires.
*If the class state before the free satisfies the exact emptiness invariant*,
the free leaves the class full or within strictly less than one block of it
(`5·used_blocks + 5 > 3·num_of_blocks`, i.e. `used > (1-F)·num - 1` with
`F = 0.4`); the exact invariant itself can remain violated
(C1_counterexample).  No unconditional per-free guarantee holds: the slack
states that evictions leave behind are reachable, and a free from one of them
can fall below even the slack bound — witnessed here by the class-15 (`S = 1`)
state `[1,0,0]` (reachable by five allocations and four frees; exact
invariant already violated, slack satisfied), whose next free evicts the tail
and leaves `[0,0]`: two wholly empty superblocks, `5·0 + 5 = 5 ≤ 6 = 3·2`. -/
theorem C1_amended_emptiness_slack :
    (∀ (S : Nat) (pre : List Nat) (a : Nat) (post : List Nat),
        SortedSb (pre ++ a :: post) → (∀ u ∈ pre ++ a :: post, u ≤ S) → 1 ≤ a →
        emptyInv S (pre ++ a :: post) →
        emptyInvSlack S (freeStep S pre a post))
      ∧ ¬emptyInv 1 ([] ++ 1 :: [0, 0])
      ∧ emptyInvSlack 1 ([] ++ 1 :: [0, 0])
      ∧ freeStep 1 [] 1 [0, 0] = [0, 0]
      ∧ ¬emptyInvSlack 1 (freeStep 1 [] 1 [0, 0]) := by
  refine ⟨?_, by decide, by decide, by decide, by decide⟩
  intro S pre a post hs hb ha hinv
  have hs' : SortedSb (freeResort pre a post) := freeResort_sorted pre a post hs
  have hlen : (freeResort pre a post).length = pre.length + post.length + 1 := by
    simp [freeResort, bubbleToTail_length]
    omega
  have hsum : (freeResort pre a post).sum + 1 = (pre ++ a :: post).sum := by
    simp only [freeResort, List.sum_append, List.sum_cons, bubbleToTail_sum]
    omega
  have hlen0 : (pre ++ a :: post).length = pre.length + post.length + 1 := by
    simp
    omega
  have hbound : ∀ x ∈ freeResort pre a post, x ≤ S := by
    intro x hx
    rw [freeResort, List.mem_append] at hx
    rcases hx with hx | hx
    · exact hb x (by simp [hx])
    · rcases bubbleToTail_mem (a - 1) x post hx with rfl | hx
      · have := hb a (by simp)
        omega
      · exact hb x (by simp [hx])
  have hkey : 3 * ((pre ++ a :: post).length * S) ≤ 5 * (pre ++ a :: post).sum := by
    have hle := sum_le_length_mul (pre ++ a :: post) S hb
    rcases hinv with h1 | h1
    · simp only [Kconst, zero_mul, Nat.sub_zero] at h1
      omega
    · omega
  rw [freeStep]
  by_cases hev : evictCheck S (freeResort pre a post) = true
  · rw [if_pos hev]
    simp only [evictCheck, Kconst, zero_mul, Nat.sub_zero, Bool.and_eq_true,
      decide_eq_true_eq] at hev
    rcases List.eq_nil_or_concat (freeResort pre a post) with hnil | ⟨r, t, hrt⟩
    · rw [hnil] at hlen; simp at hlen
    · rw [List.concat_eq_append] at hrt
      have hlast : (freeResort pre a post).getLast? = some t := by
        rw [hrt]; exact List.getLast?_concat r
      have hmin : ∀ x ∈ freeResort pre a post, t ≤ x :=
        sorted_getLast_le _ hs' t hlast
      have hmt : (r.length + 1) * t ≤ r.sum + t := by
        have h1 := sum_ge_length_mul (freeResort pre a post) t hmin
        rw [hrt] at h1
        simpa [List.sum_append, List.length_append] using h1
      have hsum' : (freeResort pre a post).sum = r.sum + t := by
        rw [hrt]; simp [List.sum_append]
      have hlen' : (freeResort pre a post).length = r.length + 1 := by
        rw [hrt]; simp
      have h5t : 5 * t < 3 * S := by
        have h1 : (r.length + 1) * (5 * t) ≤ 5 * (r.sum + t) := by
          calc (r.length + 1) * (5 * t) = 5 * ((r.length + 1) * t) := by ring
            _ ≤ 5 * (r.sum + t) := Nat.mul_le_mul_left 5 hmt
        have h2 : 5 * (r.sum + t) < 3 * ((r.length + 1) * S) := by
          have := hev.2
          rw [hsum', hlen'] at this
          omega
        have h3 : 3 * ((r.length + 1) * S) = (r.length + 1) * (3 * S) := by ring
        exact Nat.lt_of_mul_lt_mul_left (h1.trans_lt (h2.trans_eq h3))
      have hdrop : (freeResort pre a post).dropLast = r := by
        rw [hrt]; exact List.dropLast_concat
      rw [hdrop]
      have hkey' : 3 * ((r.length + 1) * S) ≤ 5 * (r.sum + t) + 5 := by
        have e1 : (pre ++ a :: post).length = r.length + 1 := by
          rw [hlen0, ← hlen, hlen']
        have e2 : (pre ++ a :: post).sum = r.sum + t + 1 := by
          rw [← hsum, hsum']
        rw [e1, e2] at hkey
        omega
      have hev2 : 5 * (r.sum + t) < 3 * ((r.length + 1) * S) := by
        have := hev.2
        rw [hsum', hlen'] at this
        omega
      have hfin : ∀ A B u tt SS : Nat, B = A + SS → 3 * B ≤ 5 * u + 5 * tt + 5 →
          5 * u + 5 * tt < 3 * B → 5 * tt + 1 ≤ 3 * SS →
          A ≤ u ∨ 3 * A < 5 * u + 5 := by
        intro A B u tt SS e f g k
        omega
      rw [emptyInvSlack]
      exact hfin (r.length * S) ((r.length + 1) * S) r.sum t S (by ring)
        (by omega) (by omega) (by omega)
  · rw [if_neg hev]
    simp only [evictCheck, Kconst, zero_mul, Nat.sub_zero, Bool.and_eq_true,
      decide_eq_true_eq, not_and, not_lt] at hev
    rw [emptyInvSlack]
    by_cases hlt : (freeResort pre a post).sum < (freeResort pre a post).length * S
    · right
      have := hev hlt
      omega
    · left
      omega

/-- Witness for C1_amended_emptiness_slack on the counterexample state. -/
theorem C1_amended_emptiness_slack_witness :
    (SortedSb ([1, 1] ++ 1 :: [0, 0])
        ∧ (∀ u ∈ [1, 1] ++ 1 :: [0, 0], u ≤ 1)
        ∧ 1 ≤ 1
        ∧ emptyInv 1 ([1, 1] ++ 1 :: [0, 0]))
      ∧ emptyInvSlack 1 (freeStep 1 [1, 1] 1 [0, 0]) :=
  ⟨⟨by decide, by decide, by decide, by decide⟩,
    C1_amended_emptiness_slack.1 1 [1, 1] 1 [0, 0] (by decide) (by decide)
      (by decide) (by decide)⟩

/-! ### The fast-reuse scenario S1 (C7) -/

/-- One unfolding of the free-list chain at class 4's capacity
(`numBlocks 4 = (65536-80)/(24+16) = 1636`). -/
theorem mkFreeList_cons_eval (b w : Nat) :
    mkFreeList b w 1636 = b :: mkFreeList (b + w) w 1635 := rfl

set_option maxHeartbeats 2000000

/-- Claim C7: from a cold start on any CPU heap `h < NUM_OF_CPUS` and for any
superblock base `a` returned by the OS, allocate(16) / free / allocate(16)
returns the same pointer twice (`a + sizeof(superblockHeader) +
sizeof(blockHeader)`): the free pushes the block back at its superblock's
free-list head, and the second allocate pops that very head (after the
invariant check has migrated the superblock to the global heap, the pop
happens on the transfer path). -/
theorem C7_fastpath_reuse :
    ∀ h a : Nat, h < 2 →
      (c7run h a).1 = some (a + 104) ∧ (c7run h a).2 = (c7run h a).1 := by
  intro h a hh
  have hne : h ≠ 2 := by omega
  have hclog : Nat.clog 2 16 = 4 := by
    rw [show (16 : ℕ) = 2 ^ 4 by norm_num]
    exact Nat.clog_pow 2 4 (by norm_num)
  have hlog : Nat.log 2 16 = 4 := by
    rw [show (16 : ℕ) = 2 ^ 4 by norm_num]
    exact Nat.log_pow (by norm_num) 4
  have h2ne : (2 : Nat) ≠ h := Ne.symm hne
  have hba : isBlockAddr a 4 (a + 80) := by
    refine ⟨0, ?_, ?_⟩
    · show 0 < numBlocks 4
      simp [numBlocks, SUPERBLOCK_SIZE, sbhSize, blockStride, bhSize, classSize]
    · simp [sbhSize]
  have hsub : ∀ n : Nat, n + 104 - 24 = n + 80 := fun n => by omega
  have key : c7run h a = (some (a + 104), some (a + 104)) := by
    simp [c7run, mallocSm, hclog, hlog, hne, h2ne, hba, hsub, mallocSmall,
      search_sizeclass, initialState, searchSbs, freeModel, move_superblock,
      resortDown, resortUp, bubbleSbDown, bubbleSbUp, sbKey, updClass, updSb,
      updBlock, initBlocks, init_superblock, popBlock, pushBlock, payload,
      globalHeapIdx, NUM_OF_CPUS, Kconst, numBlocks, SUPERBLOCK_SIZE, sbhSize,
      blockStride, bhSize, classSize, SIZE_THRESHOLD, mkFreeList_cons_eval]
  rw [key]
  exact ⟨rfl, rfl⟩

/-- Witness for C7_fastpath_reuse at `h = 0`, `a = 5`. -/
theorem C7_fastpath_reuse_witness :
    (0 : Nat) < 2 ∧ (c7run 0 5).1 = some (5 + 104)
      ∧ (c7run 0 5).2 = (c7run 0 5).1 :=
  ⟨by decide, (C7_fastpath_reuse 0 5 (by decide)).1,
    (C7_fastpath_reuse 0 5 (by decide)).2⟩

/-! ### The frame of `free` on block headers (C10) -/

theorem updClass_blocks (st : HState) (h c : Nat) (f : SClass → SClass) :
    (updClass st h c f).blocks = st.blocks := rfl

theorem updSb_blocks (st : HState) (s : Nat) (f : SBlock → SBlock) :
    (updSb st s f).blocks = st.blocks := rfl

theorem move_superblock_blocks (st : HState) (s src dst c : Nat) :
    (move_superblock st s src dst c).blocks = st.blocks := rfl

/-- Claim C10: a free of a small block rewrites only that block's header (its
`inUse` flag; its `next` is the free-list link), and every block header keeps
its `blockSize` and `parentSuperblock`; headers of all other blocks are
untouched. -/
theorem C10_free_frame :
    ∀ (st : HState) (ptr : Nat),
      ¬SIZE_THRESHOLD < (st.blocks (ptr - bhSize)).blockSize →
      (∀ x, ((freeModel st ptr).blocks x).blockSize = (st.blocks x).blockSize
          ∧ ((freeModel st ptr).blocks x).parentSuperblock
              = (st.blocks x).parentSuperblock)
        ∧ ∀ x, x ≠ ptr - bhSize → (freeModel st ptr).blocks x = st.blocks x := by
  intro st ptr hsm
  have hblocks : (freeModel st ptr).blocks = fun x =>
      if x = ptr - bhSize then
        { st.blocks (ptr - bhSize) with inUse := false }
      else st.blocks x := by
    rw [freeModel, if_neg hsm]
    dsimp only
    split
    · split
      · rw [move_superblock_blocks, updClass_blocks, updClass_blocks, updSb_blocks]
        rfl
      · rw [updClass_blocks, updClass_blocks, updSb_blocks]
        rfl
    · rw [updClass_blocks, updClass_blocks, updSb_blocks]
      rfl
  constructor
  · intro x
    rw [hblocks]
    by_cases hx : x = ptr - bhSize
    · simp [hx]
    · simp [hx]
  · intro x hx
    rw [hblocks]
    simp [hx]

/-- Witness for C10_free_frame at the initial state, `ptr = 100`. -/
theorem C10_free_frame_witness :
    ¬SIZE_THRESHOLD < (initialState.blocks (100 - bhSize)).blockSize
      ∧ ((freeModel initialState 100).blocks 5).blockSize
          = (initialState.blocks 5).blockSize
      ∧ (freeModel initialState 100).blocks 5 = initialState.blocks 5 :=
  ⟨by decide, ((C10_free_frame initialState 100 (by decide)).1 5).1,
    (C10_free_frame initialState 100 (by decide)).2 5 (by decide)⟩

end Mtmm
